import Mathlib

/- Verification of the peer negotiation and chunked file transfer logic of
   the DriveRTC repository. The definitions below are a shallow embedding of
   the WebRTCManager class (frontend WebRTCManager.js) and of the inbound
   data handler wired to it in frontend/src/App.js. Machine maps are
   embedded as functions from peer identifiers to optional values, object
   literals as inductive constructors, and the asynchronous message sends as
   explicit message lists threaded through the state. -/

/-- Bytes of a payload, modelled as natural numbers. The transfer logic
never inspects byte values, it only slices and concatenates them. -/
abbrev Byte := Nat

/-- A file handed to transferFileToPeer. The source reads the name, size and
slice members of the file object; the size member equals the length of the
byte list here. -/
structure FileData where
  name : String
  bytes : List Byte
deriving DecidableEq

/-- Transfer protocol messages, one constructor per object literal built in
WebRTCManager: file metadata, file chunk, and transfer completion. The
base64 payload string of a chunk message is modelled by the byte slice it
encodes, since base64 encoding is injective on bytes. -/
inductive Msg where
  | file_metadata (name : String) (size : Nat) (chunks : Nat)
  | file_chunk (chunk_index : Nat) (total_chunks : Nat) (data : List Byte)
  | transfer_complete (fileName : String)
deriving DecidableEq, BEq

/-- JSON keys of each message object, exactly as written in the three object
literals of transferFileToPeer. -/
def Msg.keys : Msg → List String
  | .file_metadata _ _ _ => ["type", "name", "size", "chunks"]
  | .file_chunk _ _ _ => ["type", "chunk_index", "total_chunks", "data"]
  | .transfer_complete _ => ["type", "fileName"]

/-- The fixed 16KB chunk size constant of transferFileToPeer. -/
def chunkSize : Nat := 16384

/-- Number of chunks for a payload of the given size: the expression
Math.ceil of size over 16384 from transferFileToPeer, embedded as ceiling
division on naturals. -/
def totalChunksOf (size : Nat) : Nat := (size + chunkSize - 1) / chunkSize

/-- Chunk number i of a byte list, as in the loop body of
transferFileToPeer: start is i times chunkSize, stop is the minimum of
start plus chunkSize and the total size, and the chunk is the slice of the
bytes from start to stop. -/
def chunkBytes (bytes : List Byte) (i : Nat) : List Byte :=
  let start := i * chunkSize
  let stop := min (start + chunkSize) bytes.length
  (bytes.drop start).take (stop - start)

/-- A transport negotiation artifact (ICE candidate). The manager treats
candidates as wholly opaque payloads, so the content is a bare tag. -/
structure Candidate where
  tag : Nat
deriving DecidableEq

/-- A session description (offer or answer). The manager applies these
without inspecting them, so the content is a bare tag. -/
structure SessionDesc where
  tag : Nat
deriving DecidableEq

/-- Messages handed to the signaling socket by sendSignalingMessage, one
constructor per object literal sent through the relay. -/
inductive SigMsg where
  | register (device_name : String) (ip_address : String) (local_port : Nat)
  | offer (to_client : String) (data : SessionDesc)
  | answer (to_client : String) (data : SessionDesc)
  | ice_candidate (to_client : String) (data : Candidate)
deriving DecidableEq

/-- One RTCDataChannel: its readyState string and the ordered list of
messages handed to channel.send. The source serializes each message with
JSON.stringify before sending; serialization is injective on the message
objects, so the channel log records the structured messages. -/
structure DataChannel where
  readyState : String
  sent : List Msg
deriving DecidableEq

/-- One RTCPeerConnection as the manager observes it: the applied remote
and local session descriptions, the candidates successfully added by
addIceCandidate, and the connection state string. -/
structure PeerConn where
  remoteDescription : Option SessionDesc
  localDescription : Option SessionDesc
  appliedCandidates : List Candidate
  connectionState : String
deriving DecidableEq

/-- A freshly constructed RTCPeerConnection: no descriptions applied, no
candidates added, connection state new. -/
def PeerConn.fresh : PeerConn :=
  { remoteDescription := none, localDescription := none,
    appliedCandidates := [], connectionState := "new" }

/-- A JavaScript Map keyed by peer id, embedded as a function to optional
values. -/
def Store (α : Type) := String → Option α

/-- Map.get. -/
def Store.get (s : Store α) (k : String) : Option α := s k

/-- Map.set: replaces or inserts the entry for the key. -/
def Store.set (s : Store α) (k : String) (v : α) : Store α :=
  fun x => if x = k then some v else s x

/-- Map.delete: removes the entry for the key. -/
def Store.del (s : Store α) (k : String) : Store α :=
  fun x => if x = k then none else s x

/-- The empty map. -/
def Store.empty : Store α := fun _ => none

/-- The mutable state of one WebRTCManager instance, restricted to the
members the negotiation and transfer logic reads and writes: the two maps
keyed by peer id, the signaling socket presence and connected flag, and the
ordered log of messages handed to the signaling socket. -/
structure Manager where
  socketPresent : Bool
  isConnected : Bool
  signalsSent : List SigMsg
  peerConnections : Store PeerConn
  dataChannels : Store DataChannel

/-- sendSignalingMessage: hands the message to the signaling socket only
when the socket exists and the connected flag is set; otherwise the message
is silently not sent. -/
def sendSignalingMessage (m : Manager) (msg : SigMsg) : Manager :=
  if m.socketPresent && m.isConnected then
    { m with signalsSent := m.signalsSent ++ [msg] }
  else m

/-- sendDataToPeer: looks up the data channel of the peer; when it exists
and its readyState is open, the JSON serialized message is handed to
channel.send and the call returns true; otherwise it returns false and
nothing changes. -/
def sendDataToPeer (m : Manager) (peerId : String) (data : Msg) :
    Manager × Bool :=
  match m.dataChannels.get peerId with
  | some channel =>
    if channel.readyState = "open" then
      let updated := { channel with sent := channel.sent ++ [data] }
      ({ m with dataChannels := m.dataChannels.set peerId updated }, true)
    else (m, false)
  | none => (m, false)

/-- The chunk sending loop of transferFileToPeer over a list of chunk
indices: each iteration slices the chunk, wraps it in a file chunk message
and hands it to sendDataToPeer; a failed send throws, which the surrounding
try block turns into a false return. -/
def sendChunksLoop (peerId : String) (fd : FileData) (totalChunks : Nat) :
    Manager → List Nat → Manager × Bool
  | m, [] => (m, true)
  | m, i :: rest =>
    let msg := Msg.file_chunk i totalChunks (chunkBytes fd.bytes i)
    let r := sendDataToPeer m peerId msg
    if r.2 then sendChunksLoop peerId fd totalChunks r.1 rest
    else (r.1, false)

/-- transferFileToPeer: sends the file metadata message, then every chunk
in index order zero up to totalChunks minus one, then the transfer
completion message, and returns true; a failed metadata or chunk send
throws inside the try block and the catch returns false. The result of the
completion send is not checked by the source. -/
def transferFileToPeer (m : Manager) (peerId : String) (fd : FileData) :
    Manager × Bool :=
  let totalChunks := totalChunksOf fd.bytes.length
  let metadata := Msg.file_metadata fd.name fd.bytes.length totalChunks
  let r1 := sendDataToPeer m peerId metadata
  if r1.2 then
    let r2 := sendChunksLoop peerId fd totalChunks r1.1
      (List.range totalChunks)
    if r2.2 then
      let r3 := sendDataToPeer r2.1 peerId (Msg.transfer_complete fd.name)
      (r3.1, true)
    else (r2.1, false)
  else (r1.1, false)

/-- createPeerConnection: constructs a fresh RTCPeerConnection, installs
the event handlers (whose semantics the other definitions below give), and
stores it in the peerConnections map under the peer id. -/
def createPeerConnection (m : Manager) (peerId : String) : Manager :=
  { m with peerConnections := m.peerConnections.set peerId PeerConn.fresh }

/-- Platform behavior of RTCPeerConnection.addIceCandidate as the manager
relies on it: adding a candidate succeeds and records it once a remote
description has been applied, and rejects with an InvalidStateError before
that; the manager catches the rejection. -/
def addIceCandidate (pc : PeerConn) (c : Candidate) : Option PeerConn :=
  if pc.remoteDescription.isSome then
    some { pc with appliedCandidates := pc.appliedCandidates ++ [c] }
  else none

/-- handleOffer: creates a peer connection for the offering peer, applies
the offer as the remote description, applies the environment generated
answer as the local description, and hands the answer to the signaling
socket addressed to the offering peer. The answer produced by createAnswer
is an input here because the platform generates it. -/
def handleOffer (m : Manager) (peerId : String) (offer : SessionDesc)
    (answer : SessionDesc) : Manager :=
  let m1 := createPeerConnection m peerId
  let m2 :=
    match m1.peerConnections.get peerId with
    | some pc =>
      let pc2 := { pc with remoteDescription := some offer,
                           localDescription := some answer }
      { m1 with peerConnections := m1.peerConnections.set peerId pc2 }
    | none => m1
  sendSignalingMessage m2 (SigMsg.answer peerId answer)

/-- handleAnswer: looks up the peer connection and, when present, applies
the answer as the remote description; when absent nothing happens. -/
def handleAnswer (m : Manager) (peerId : String) (answer : SessionDesc) :
    Manager :=
  match m.peerConnections.get peerId with
  | some pc =>
    let pc2 := { pc with remoteDescription := some answer }
    { m with peerConnections := m.peerConnections.set peerId pc2 }
  | none => m

/-- handleIceCandidate: looks up the peer connection and, when present,
calls addIceCandidate; a rejection is caught and logged, so the candidate
is discarded. When the peer connection is absent nothing happens. There is
no buffer of pending candidates anywhere in the manager state. -/
def handleIceCandidate (m : Manager) (peerId : String) (c : Candidate) :
    Manager :=
  match m.peerConnections.get peerId with
  | some pc =>
    match addIceCandidate pc c with
    | some pc2 =>
      { m with peerConnections := m.peerConnections.set peerId pc2 }
    | none => m
  | none => m

/-- Peer lifecycle notifications delivered to the application callbacks. -/
inductive PeerEvent where
  | peerConnected
  | peerDisconnected
deriving DecidableEq, BEq

/-- The onconnectionstatechange handler body: on state connected it fires
the peerConnected callback; on state disconnected or failed it fires the
peerDisconnected callback and calls cleanupPeerConnection (the boolean
records that call); on any other state it does nothing. The decision reads
only the current connection state. -/
def connStateEffects (st : String) : List PeerEvent × Bool :=
  if st = "connected" then ([PeerEvent.peerConnected], false)
  else if st = "disconnected" ∨ st = "failed" then
    ([PeerEvent.peerDisconnected], true)
  else ([], false)

/-- Callback firings over a whole run of the handler: the platform invokes
the handler once per connection state change, so a run is the list of
successive states observed, and the events are the concatenated handler
firings. -/
def traceEvents (states : List String) : List PeerEvent :=
  (states.map (fun st => (connStateEffects st).1)).flatten

/-- Successive states in a handler run are pairwise different, because the
platform fires onconnectionstatechange only when the connection state
actually changes. The first argument is the state before the run. -/
def statesChange : String → List String → Bool
  | _, [] => true
  | prev, st :: rest => (prev != st) && statesChange st rest

/-- Formalizes the claim notion of a transition into a target state over
the full state sequence, initial state at the head: the number of adjacent
pairs whose second member is the target and whose first member is not. -/
def spec_transitionsInto (target : String) : List String → Nat
  | a :: b :: rest =>
    (if a ≠ target ∧ b = target then 1 else 0)
      + spec_transitionsInto target (b :: rest)
  | _ => 0

/-- Formalizes the claim notion of a transition out of a source state over
the full state sequence, initial state at the head: the number of adjacent
pairs whose first member is the source and whose second member is not. -/
def spec_transitionsOutOf (source : String) : List String → Nat
  | a :: b :: rest =>
    (if a = source ∧ b ≠ source then 1 else 0)
      + spec_transitionsOutOf source (b :: rest)
  | _ => 0

/-- The close calls performed by cleanupPeerConnection, recording the
object each close was invoked on. -/
inductive CloseAction where
  | closedPeerConnection (pc : PeerConn)
  | closedDataChannel (ch : DataChannel)
deriving DecidableEq

/-- cleanupPeerConnection: when the peer has an entry in peerConnections,
closes it and deletes the entry; then, when the peer has an entry in
dataChannels, closes it and deletes that entry; other peers and the rest of
the manager state are untouched. The returned list records the close calls
in order. -/
def cleanupPeerConnection (m : Manager) (peerId : String) :
    Manager × List CloseAction :=
  let step1 :=
    match m.peerConnections.get peerId with
    | some pc =>
      ({ m with peerConnections := m.peerConnections.del peerId },
        [CloseAction.closedPeerConnection pc])
    | none => (m, [])
  match step1.1.dataChannels.get peerId with
  | some ch =>
    ({ step1.1 with dataChannels := step1.1.dataChannels.del peerId },
      step1.2 ++ [CloseAction.closedDataChannel ch])
  | none => step1

/-- Log lines produced by the onDataReceived handler installed in App.js,
one constructor per branch of its type dispatch. -/
inductive ReceiverLog where
  | receivingFile (name : String) (size : Nat)
  | receivedChunk (displayIndex : Nat) (total : Nat)
  | transferCompleted (fileName : String)
deriving DecidableEq, BEq

/-- The onDataReceived handler assigned to the manager in App.js: it
dispatches on the message type and logs; it keeps no state, assembles no
buffer, and checks nothing about chunk coverage. The chunk branch prints
the index plus one. -/
def onDataReceived : Msg → ReceiverLog
  | .file_metadata name size _ => .receivingFile name size
  | .file_chunk i total _ => .receivedChunk (i + 1) total
  | .transfer_complete name => .transferCompleted name

/-- The receiver processing of an inbound message sequence: the data
channel onmessage handler parses each message and invokes onDataReceived on
it in arrival order. -/
def receiverLogs (msgs : List Msg) : List ReceiverLog :=
  msgs.map onDataReceived

/-- Formalizes the claim notion of the chunk indices observed before the
first completion marker of an inbound message sequence. -/
def spec_indicesBefore : List Msg → List Nat
  | [] => []
  | .transfer_complete _ :: _ => []
  | .file_chunk i _ _ :: rest => i :: spec_indicesBefore rest
  | _ :: rest => spec_indicesBefore rest

/-- Formalizes the claim notion that every chunk index below totalChunks
was observed before the first completion marker. -/
def spec_allChunksObserved (msgs : List Msg) (totalChunks : Nat) : Bool :=
  (List.range totalChunks).all (fun i => (spec_indicesBefore msgs).contains i)

/-- A channel with further messages appended to its sent log. -/
def DataChannel.append (ch : DataChannel) (msgs : List Msg) : DataChannel :=
  { ch with sent := ch.sent ++ msgs }

/-- The manager after one successful channel.send: the message is appended
to the sent log of the channel stored for the peer. -/
def appendToChannel (m : Manager) (peerId : String) (ch : DataChannel)
    (data : Msg) : Manager :=
  { m with dataChannels := m.dataChannels.set peerId (ch.append [data]) }

/-- The data channel with peer P open and nothing sent yet. -/
def chP : DataChannel := { readyState := "open", sent := [] }

/-- A manager holding one open data channel to peer P. -/
def mgr1 : Manager :=
  { socketPresent := true, isConnected := true, signalsSent := [],
    peerConnections := Store.empty,
    dataChannels := Store.empty.set "P" chP }

/-- A manager with no peer connections and no data channels. -/
def mgr0 : Manager :=
  { socketPresent := true, isConnected := true, signalsSent := [],
    peerConnections := Store.empty, dataChannels := Store.empty }

/-- A concrete three byte file for the witnesses. -/
def fd0 : FileData := { name := "a.txt", bytes := [1, 2, 3] }

/-- A manager holding one freshly created peer connection for peer X,
before any remote description has been applied. -/
def mgrX : Manager :=
  { socketPresent := true, isConnected := true, signalsSent := [],
    peerConnections := Store.empty.set "X" PeerConn.fresh,
    dataChannels := Store.empty }

/-- A manager with a peer connection and data channel for peer p and a data
channel for peer q. -/
def mgr2 : Manager :=
  { socketPresent := true, isConnected := true, signalsSent := [],
    peerConnections := Store.empty.set "p" PeerConn.fresh,
    dataChannels := (Store.empty.set "p" chP).set "q" chP }

/-- Concatenating the first n chunks yields the first n times chunkSize
bytes of the payload (all of it once that bound passes the length). -/
theorem chunkBytes_flatten_take (bytes : List Byte) (n : Nat) :
    ((List.range n).map (chunkBytes bytes)).flatten =
      bytes.take (min (n * chunkSize) bytes.length) := by
  induction n with
  | zero => simp
  | succ n ih =>
    rw [List.range_succ, List.map_append, List.flatten_append, ih]
    simp only [List.map_cons, List.map_nil, List.flatten_cons, List.flatten_nil,
      List.append_nil, chunkBytes, chunkSize] at *
    by_cases h : bytes.length ≤ n * 16384
    · have hd : bytes.drop (n * 16384) = [] := List.drop_eq_nil_of_le h
      have h1 : min (n * 16384) bytes.length = bytes.length := by omega
      have h2 : min ((n + 1) * 16384) bytes.length = bytes.length := by omega
      rw [hd, h1, h2]
      simp
    · have h1 : min (n * 16384) bytes.length = n * 16384 := by omega
      have h2 : min ((n + 1) * 16384) bytes.length =
          n * 16384 + (min (n * 16384 + 16384) bytes.length - n * 16384) := by
        omega
      rw [h1, h2, List.take_add]

/-- Concatenating all totalChunksOf chunks reproduces the payload. -/
theorem chunkBytes_flatten (bytes : List Byte) :
    ((List.range (totalChunksOf bytes.length)).map (chunkBytes bytes)).flatten
      = bytes := by
  rw [chunkBytes_flatten_take]
  have h : min (totalChunksOf bytes.length * chunkSize) bytes.length
      = bytes.length := by
    simp only [totalChunksOf, chunkSize]
    omega
  rw [h, List.take_length]

/-- C2: for every payload and the fixed chunk size C = 16384: the chunk
count is the ceiling of size over C, characterized without division as
S at most tc * C and tc * C below S + C; chunk i is the byte slice from
i * C up to the minimum of (i + 1) * C and S; concatenating the chunks in
index order reproduces the payload exactly, so the chunk byte lengths sum
to S; and when at least one chunk exists the final chunk has byte length
S - (tc - 1) * C, never padded. -/
theorem chunking_exact (bytes : List Byte) (i : Nat) :
    (bytes.length ≤ totalChunksOf bytes.length * chunkSize
      ∧ totalChunksOf bytes.length * chunkSize < bytes.length + chunkSize)
    ∧ chunkBytes bytes i =
        (bytes.drop (i * chunkSize)).take
          (min ((i + 1) * chunkSize) bytes.length - i * chunkSize)
    ∧ ((List.range (totalChunksOf bytes.length)).map (chunkBytes bytes)).flatten
        = bytes
    ∧ ((List.range (totalChunksOf bytes.length)).map
        (fun j => (chunkBytes bytes j).length)).sum = bytes.length
    ∧ (0 < totalChunksOf bytes.length →
        (chunkBytes bytes (totalChunksOf bytes.length - 1)).length
          = bytes.length - (totalChunksOf bytes.length - 1) * chunkSize) := by
  refine ⟨⟨?_, ?_⟩, ?_, chunkBytes_flatten bytes, ?_, ?_⟩
  · simp only [totalChunksOf, chunkSize]; omega
  · simp only [totalChunksOf, chunkSize]; omega
  · simp [chunkBytes, Nat.succ_mul]
  · have h3 := congrArg List.length (chunkBytes_flatten bytes)
    rw [List.length_flatten, List.map_map] at h3
    simpa [Function.comp] using h3
  · intro htc
    simp only [chunkBytes, List.length_take, List.length_drop,
      totalChunksOf, chunkSize] at *
    omega

/-- Witness for C2 at a concrete five byte payload. -/
theorem chunking_exact_witness :
    chunkBytes [10, 20, 30, 40, 50] 0 =
        (List.drop (0 * chunkSize) [10, 20, 30, 40, 50]).take
          (min ((0 + 1) * chunkSize) 5 - 0 * chunkSize)
    ∧ ((List.range (totalChunksOf 5)).map
        (chunkBytes [10, 20, 30, 40, 50])).flatten = [10, 20, 30, 40, 50]
    ∧ (chunkBytes [10, 20, 30, 40, 50] (totalChunksOf 5 - 1)).length
        = 5 - (totalChunksOf 5 - 1) * chunkSize :=
  ⟨(chunking_exact [10, 20, 30, 40, 50] 0).2.1,
   (chunking_exact [10, 20, 30, 40, 50] 0).2.2.1,
   (chunking_exact [10, 20, 30, 40, 50] 0).2.2.2.2 (by decide)⟩

theorem Store.get_set_self (s : Store α) (k : String) (v : α) :
    (s.set k v).get k = some v := by
  simp [Store.get, Store.set]

theorem Store.get_set_ne (s : Store α) (k q : String) (v : α) (h : q ≠ k) :
    (s.set k v).get q = s.get q := by
  simp [Store.get, Store.set, h]

theorem Store.get_del_self (s : Store α) (k : String) :
    (s.del k).get k = none := by
  simp [Store.get, Store.del]

theorem Store.get_del_ne (s : Store α) (k q : String) (h : q ≠ k) :
    (s.del k).get q = s.get q := by
  simp [Store.get, Store.del, h]

theorem DataChannel.append_append (ch : DataChannel) (a b : List Msg) :
    (ch.append a).append b = ch.append (a ++ b) := by
  simp [DataChannel.append]

theorem appendToChannel_get (m : Manager) (peerId : String)
    (ch : DataChannel) (data : Msg) :
    (appendToChannel m peerId ch data).dataChannels.get peerId
      = some (ch.append [data]) :=
  Store.get_set_self ..

theorem appendToChannel_get_ne (m : Manager) (peerId q : String)
    (ch : DataChannel) (data : Msg) (h : q ≠ peerId) :
    (appendToChannel m peerId ch data).dataChannels.get q
      = m.dataChannels.get q :=
  Store.get_set_ne _ _ _ _ h

theorem sendDataToPeer_open (m : Manager) (peerId : String) (data : Msg)
    (ch : DataChannel) (hch : m.dataChannels.get peerId = some ch)
    (hrs : ch.readyState = "open") :
    sendDataToPeer m peerId data = (appendToChannel m peerId ch data, true) := by
  unfold sendDataToPeer appendToChannel DataChannel.append
  rw [hch]
  simp [hrs]

theorem sendDataToPeer_closed (m : Manager) (peerId : String) (data : Msg)
    (h : m.dataChannels.get peerId = none
      ∨ ∃ ch, m.dataChannels.get peerId = some ch ∧ ch.readyState ≠ "open") :
    sendDataToPeer m peerId data = (m, false) := by
  unfold sendDataToPeer
  rcases h with h | ⟨ch, hch, hrs⟩
  · rw [h]
  · rw [hch]
    simp [hrs]

/-- C10: sendDataToPeer returns true exactly when the dataChannels map has
an entry for the peer whose readyState is open, and in that case it hands
the message (serialized by JSON.stringify) to that channel and touches
nothing else; in every other case it returns false, raises no error, and
leaves the whole manager state unchanged. -/
theorem sendDataToPeer_spec (m : Manager) (peerId : String) (data : Msg) :
    ((sendDataToPeer m peerId data).2 = true ↔
      ∃ ch, m.dataChannels.get peerId = some ch ∧ ch.readyState = "open")
    ∧ (∀ ch, m.dataChannels.get peerId = some ch → ch.readyState = "open" →
        (sendDataToPeer m peerId data).1.dataChannels.get peerId
          = some (ch.append [data]))
    ∧ (∀ q, q ≠ peerId →
        (sendDataToPeer m peerId data).1.dataChannels.get q
          = m.dataChannels.get q)
    ∧ (sendDataToPeer m peerId data).1.peerConnections = m.peerConnections
    ∧ (sendDataToPeer m peerId data).1.signalsSent = m.signalsSent
    ∧ ((sendDataToPeer m peerId data).2 = false →
        (sendDataToPeer m peerId data).1 = m) := by
  by_cases hopen :
      ∃ ch, m.dataChannels.get peerId = some ch ∧ ch.readyState = "open"
  · obtain ⟨ch, hch, hrs⟩ := hopen
    rw [sendDataToPeer_open m peerId data ch hch hrs]
    refine ⟨⟨fun _ => ⟨ch, hch, hrs⟩, fun _ => rfl⟩, ?_, ?_, rfl, rfl, ?_⟩
    · intro ch2 hc2 hrs2
      rw [hch] at hc2
      injection hc2 with h2
      subst h2
      exact appendToChannel_get ..
    · intro q hq
      exact appendToChannel_get_ne _ _ _ _ _ hq
    · intro h
      cases h
  · have hcl : m.dataChannels.get peerId = none
        ∨ ∃ ch, m.dataChannels.get peerId = some ch
            ∧ ch.readyState ≠ "open" := by
      cases hch : m.dataChannels.get peerId with
      | none => exact Or.inl rfl
      | some ch => exact Or.inr ⟨ch, rfl, fun hrs => hopen ⟨ch, hch, hrs⟩⟩
    rw [sendDataToPeer_closed m peerId data hcl]
    refine ⟨?_, ?_, fun q _ => rfl, rfl, rfl, fun _ => rfl⟩
    · constructor
      · intro h
        cases h
      · intro hex
        exact absurd hex hopen
    · intro ch2 hc2 hrs2
      exact absurd ⟨ch2, hc2, hrs2⟩ hopen

/-- Witness for C10 at a concrete manager with an open channel. -/
theorem sendDataToPeer_spec_witness :
    (sendDataToPeer mgr1 "P" (Msg.transfer_complete "a")).2 = true
    ∧ (sendDataToPeer mgr1 "P" (Msg.transfer_complete "a")).1.dataChannels.get "P"
        = some (chP.append [Msg.transfer_complete "a"]) :=
  ⟨(sendDataToPeer_spec mgr1 "P" (Msg.transfer_complete "a")).1.mpr
      ⟨chP, rfl, rfl⟩,
   (sendDataToPeer_spec mgr1 "P" (Msg.transfer_complete "a")).2.1 chP rfl rfl⟩

/-- C5: when the data channel of the peer is absent or not open, the whole
transfer fails: transferFileToPeer returns false to the caller (the thrown
metadata error is caught inside the method) and the manager state is
unchanged, so nothing was handed to any channel and the engine performs no
retry. -/
theorem transfer_fails_notConnected (m : Manager) (peerId : String)
    (fd : FileData)
    (h : m.dataChannels.get peerId = none
      ∨ ∃ ch, m.dataChannels.get peerId = some ch ∧ ch.readyState ≠ "open") :
    transferFileToPeer m peerId fd = (m, false) := by
  have hm := sendDataToPeer_closed m peerId
    (Msg.file_metadata fd.name fd.bytes.length (totalChunksOf fd.bytes.length)) h
  simp [transferFileToPeer, hm]

/-- Witness for C5 at a manager with no channel for the peer. -/
theorem transfer_fails_notConnected_witness :
    transferFileToPeer mgr0 "P" { name := "a.txt", bytes := [1, 2, 3] }
      = (mgr0, false) :=
  transfer_fails_notConnected mgr0 "P" _ (Or.inl rfl)

/-- With an open channel to the peer, the chunk loop sends one chunk
message per index in list order, appends them to that channel, and reports
success. -/
theorem sendChunksLoop_open (peerId : String) (fd : FileData) (tc : Nat) :
    ∀ (is : List Nat) (m : Manager) (ch : DataChannel),
      m.dataChannels.get peerId = some ch → ch.readyState = "open" →
      (sendChunksLoop peerId fd tc m is).2 = true
      ∧ (sendChunksLoop peerId fd tc m is).1.dataChannels.get peerId
          = some (ch.append (is.map (fun i => Msg.file_chunk i tc (chunkBytes fd.bytes i))))
  | [], m, ch, hch, hrs => by
    refine ⟨rfl, ?_⟩
    rw [sendChunksLoop, hch]
    simp [DataChannel.append]
  | i :: rest, m, ch, hch, hrs => by
    rw [sendChunksLoop]
    rw [sendDataToPeer_open m peerId
      (Msg.file_chunk i tc (chunkBytes fd.bytes i)) ch hch hrs]
    simp only [if_pos]
    have ih := sendChunksLoop_open peerId fd tc rest
      (appendToChannel m peerId ch (Msg.file_chunk i tc (chunkBytes fd.bytes i)))
      (ch.append [Msg.file_chunk i tc (chunkBytes fd.bytes i)])
      (appendToChannel_get ..) hrs
    refine ⟨ih.1, ?_⟩
    rw [ih.2, DataChannel.append_append]
    simp

/-- C1: with an open channel to the peer, transferFileToPeer hands to that
channel exactly one file metadata message first, then one chunk message per
index in strict order zero up to totalChunks minus one, then exactly one
transfer completion message, and returns true: success is reported once the
completion message has been handed to the channel, and no acknowledgment
from the peer exists anywhere in the protocol. -/
theorem transfer_message_sequence (m : Manager) (peerId : String)
    (fd : FileData) (ch : DataChannel)
    (hch : m.dataChannels.get peerId = some ch)
    (hrs : ch.readyState = "open") :
    (transferFileToPeer m peerId fd).2 = true
    ∧ (transferFileToPeer m peerId fd).1.dataChannels.get peerId
        = some (ch.append
            (Msg.file_metadata fd.name fd.bytes.length (totalChunksOf fd.bytes.length)
              :: ((List.range (totalChunksOf fd.bytes.length)).map
                    (fun i => Msg.file_chunk i (totalChunksOf fd.bytes.length)
                      (chunkBytes fd.bytes i))
                ++ [Msg.transfer_complete fd.name]))) := by
  have h1 := sendDataToPeer_open m peerId
    (Msg.file_metadata fd.name fd.bytes.length (totalChunksOf fd.bytes.length))
    ch hch hrs
  have h2 := sendChunksLoop_open peerId fd (totalChunksOf fd.bytes.length)
    (List.range (totalChunksOf fd.bytes.length))
    (appendToChannel m peerId ch (Msg.file_metadata fd.name fd.bytes.length (totalChunksOf fd.bytes.length)))
    (ch.append [Msg.file_metadata fd.name fd.bytes.length (totalChunksOf fd.bytes.length)])
    (appendToChannel_get ..) hrs
  have h3 := sendDataToPeer_open _ peerId
    (Msg.transfer_complete fd.name) _ h2.2 hrs
  simp only [transferFileToPeer, h1, h2.1, h3, if_pos]
  refine ⟨trivial, ?_⟩
  rw [appendToChannel_get, DataChannel.append_append, DataChannel.append_append]
  simp

/-- Witness for C1 at a concrete manager, peer and file. -/
theorem transfer_message_sequence_witness :
    (transferFileToPeer mgr1 "P" fd0).2 = true
    ∧ (transferFileToPeer mgr1 "P" fd0).1.dataChannels.get "P"
        = some (chP.append
            (Msg.file_metadata fd0.name fd0.bytes.length (totalChunksOf fd0.bytes.length)
              :: ((List.range (totalChunksOf fd0.bytes.length)).map
                    (fun i => Msg.file_chunk i (totalChunksOf fd0.bytes.length)
                      (chunkBytes fd0.bytes i))
                ++ [Msg.transfer_complete fd0.name]))) :=
  ⟨(transfer_message_sequence mgr1 "P" fd0 chP rfl rfl).1,
   (transfer_message_sequence mgr1 "P" fd0 chP rfl rfl).2⟩

/-- C4 counterexample: the claim says every message of a transfer carries a
transferId field; in fact, after a successful concrete transfer, none of
the messages handed to the channel has a transferId key at all. -/
theorem transferId_missing_counterexample :
    (transferFileToPeer mgr1 "P" fd0).2 = true
    ∧ ((transferFileToPeer mgr1 "P" fd0).1.dataChannels.get "P").map
        (fun ch => ch.sent.all (fun msg => !(msg.keys.contains "transferId")))
      = some true := by
  constructor
  · decide
  · decide

/-- C4 amended: the sender allocates no transfer identifier at all; no
transfer protocol message carries a transferId key — the metadata object
has exactly the keys type, name, size and chunks, the chunk object the keys
type, chunk_index, total_chunks and data, and the completion object the
keys type and fileName — so two concurrent transfers to the same peer are
not distinguished by any identifier. -/
theorem no_transferId_in_protocol (msg : Msg) :
    ¬ ("transferId" ∈ msg.keys) := by
  cases msg <;> simp only [Msg.keys] <;> decide

/-- Witness for C4 at the concrete metadata message of a three byte file. -/
theorem no_transferId_in_protocol_witness :
    ¬ ("transferId" ∈ (Msg.file_metadata "a.txt" 3 1).keys) :=
  no_transferId_in_protocol (Msg.file_metadata "a.txt" 3 1)

/-- C7: on an inbound offer for a peer with no existing connection, with
the signaling socket present and connected, handleOffer creates a peer
connection for that peer, applies the offer as its remote description and
the platform generated answer as its local description, and hands the
answer, addressed to the offering peer, to the signaling socket. -/
theorem offer_creates_and_answers (m : Manager) (peerId : String)
    (offer answer : SessionDesc)
    (_habs : m.peerConnections.get peerId = none)
    (hsock : m.socketPresent = true) (hconn : m.isConnected = true) :
    (handleOffer m peerId offer answer).peerConnections.get peerId
      = some { PeerConn.fresh with remoteDescription := some offer, localDescription := some answer }
    ∧ (handleOffer m peerId offer answer).signalsSent
      = m.signalsSent ++ [SigMsg.answer peerId answer] := by
  simp only [handleOffer, createPeerConnection, sendSignalingMessage]
  rw [Store.get_set_self]
  simp [hsock, hconn, Store.get_set_self, PeerConn.fresh]

/-- Witness for C7 at the empty manager. -/
theorem offer_creates_and_answers_witness :
    (handleOffer mgr0 "X" { tag := 3 } { tag := 4 }).peerConnections.get "X"
      = some { PeerConn.fresh with remoteDescription := some { tag := 3 }, localDescription := some { tag := 4 } }
    ∧ (handleOffer mgr0 "X" { tag := 3 } { tag := 4 }).signalsSent
      = mgr0.signalsSent ++ [SigMsg.answer "X" { tag := 4 }] :=
  ⟨(offer_creates_and_answers mgr0 "X" { tag := 3 } { tag := 4 } rfl rfl rfl).1,
   (offer_creates_and_answers mgr0 "X" { tag := 3 } { tag := 4 } rfl rfl rfl).2⟩

/-- C6 counterexample: a candidate that arrives before the remote session
description has been applied is dropped, not buffered: after the candidate
and then the answer are handled, the applied candidate list of the peer is
still empty, so the candidate was never replayed. -/
theorem candidate_dropped_counterexample :
    (((handleAnswer (handleIceCandidate mgrX "X" { tag := 7 }) "X"
        { tag := 1 }).peerConnections.get "X").map
      PeerConn.appliedCandidates) = some [] := by
  decide

/-- C6 amended: there is no pending candidate buffer and no replay: a
candidate handled while the peer connection is absent, or before a remote
description has been applied, leaves the manager unchanged — the platform
rejection is caught and the candidate discarded — while a candidate handled
after the remote description is applied is added immediately. -/
theorem candidate_handling (m : Manager) (peerId : String) (c : Candidate) :
    (m.peerConnections.get peerId = none → handleIceCandidate m peerId c = m)
    ∧ (∀ pc, m.peerConnections.get peerId = some pc →
        pc.remoteDescription = none → handleIceCandidate m peerId c = m)
    ∧ (∀ pc, m.peerConnections.get peerId = some pc →
        pc.remoteDescription.isSome = true →
        (handleIceCandidate m peerId c).peerConnections.get peerId
          = some { pc with appliedCandidates := pc.appliedCandidates ++ [c] }) := by
  refine ⟨?_, ?_, ?_⟩
  · intro h
    unfold handleIceCandidate
    rw [h]
  · intro pc hpc hrd
    unfold handleIceCandidate addIceCandidate
    rw [hpc]
    simp [hrd]
  · intro pc hpc hrd
    unfold handleIceCandidate addIceCandidate
    rw [hpc]
    simp [hrd, Store.get_set_self]

/-- Witness for C6 at the concrete manager with a fresh peer connection. -/
theorem candidate_handling_witness :
    handleIceCandidate mgrX "X" { tag := 7 } = mgrX :=
  (candidate_handling mgrX "X" { tag := 7 }).2.1 PeerConn.fresh rfl rfl

/-- C8 counterexample: the claimed correspondence between peerDisconnected
firings and transitions out of the Connected state fails on the run in
which a connection goes from new straight to failed: the handler fires
peerDisconnected once although no transition out of Connected occurred. -/
theorem connection_events_counterexample :
    statesChange "new" ["failed"] = true
    ∧ ¬ ((traceEvents ["failed"]).count PeerEvent.peerDisconnected
          = spec_transitionsOutOf "connected" ("new" :: ["failed"])) := by
  constructor
  · decide
  · decide

theorem count_connected_effects (st : String) :
    List.count PeerEvent.peerConnected (connStateEffects st).1
      = (if st = "connected" then 1 else 0) := by
  unfold connStateEffects
  by_cases hc : st = "connected"
  · rw [if_pos hc, if_pos hc]
    decide
  · rw [if_neg hc, if_neg hc]
    by_cases hd : st = "disconnected" ∨ st = "failed"
    · rw [if_pos hd]
      decide
    · rw [if_neg hd]
      decide

theorem count_disconnected_effects (st : String) :
    List.count PeerEvent.peerDisconnected (connStateEffects st).1
      = (if st = "disconnected" ∨ st = "failed" then 1 else 0) := by
  unfold connStateEffects
  by_cases hc : st = "connected"
  · have hd : ¬ (st = "disconnected" ∨ st = "failed") := by
      subst hc
      decide
    rw [if_pos hc, if_neg hd]
    decide
  · rw [if_neg hc]
    by_cases hd : st = "disconnected" ∨ st = "failed"
    · rw [if_pos hd, if_pos hd]
      decide
    · rw [if_neg hd, if_neg hd]
      decide

/-- C8 amended: over any run of the onconnectionstatechange handler in
which successive states differ (the platform fires the handler only on an
actual change), the peerConnected callback fires exactly once per
transition into the connected state; the peerDisconnected callback instead
fires once per handler invocation whose state is disconnected or failed —
regardless of whether the connection was ever connected — and a transition
out of connected to any other state fires nothing: the handler decides
purely on the new state, with no idempotence guard of its own. -/
theorem connection_events (init : String) (states : List String)
    (h : statesChange init states = true) :
    (traceEvents states).count PeerEvent.peerConnected
      = spec_transitionsInto "connected" (init :: states)
    ∧ (traceEvents states).count PeerEvent.peerDisconnected
      = states.countP (fun st => st == "disconnected" || st == "failed") := by
  induction states generalizing init with
  | nil => exact ⟨rfl, rfl⟩
  | cons st rest ih =>
    rw [statesChange, Bool.and_eq_true, bne_iff_ne] at h
    obtain ⟨hne, hrest⟩ := h
    have IH := ih st hrest
    have happ : traceEvents (st :: rest)
        = (connStateEffects st).1 ++ traceEvents rest := by
      simp [traceEvents]
    rw [happ, List.count_append, List.count_append,
      count_connected_effects, count_disconnected_effects,
      spec_transitionsInto, List.countP_cons, IH.1, IH.2]
    constructor
    · congr 1
      by_cases hc : st = "connected"
      · subst hc
        rw [if_pos rfl, if_pos ⟨hne, rfl⟩]
      · rw [if_neg hc, if_neg (fun hp => hc hp.2)]
    · by_cases hd : st = "disconnected" ∨ st = "failed"
      · have hb : (st == "disconnected" || st == "failed") = true := by
          rcases hd with h1 | h1 <;> subst h1 <;> decide
        rw [if_pos hd, hb, if_pos rfl]
        omega
      · have hb : (st == "disconnected" || st == "failed") = false := by
          rcases not_or.mp hd with ⟨h1, h2⟩
          simp [beq_iff_eq, h1, h2]
        rw [if_neg hd, hb]
        simp

/-- Witness for C8 at a run that connects and then disconnects. -/
theorem connection_events_witness :
    statesChange "new" ["connecting", "connected", "disconnected"] = true
    ∧ (traceEvents ["connecting", "connected", "disconnected"]).count
        PeerEvent.peerConnected
      = spec_transitionsInto "connected"
          ("new" :: ["connecting", "connected", "disconnected"])
    ∧ (traceEvents ["connecting", "connected", "disconnected"]).count
        PeerEvent.peerDisconnected
      = List.countP (fun st => st == "disconnected" || st == "failed")
          ["connecting", "connected", "disconnected"] :=
  ⟨by decide,
   (connection_events "new" ["connecting", "connected", "disconnected"]
      (by decide)).1,
   (connection_events "new" ["connecting", "connected", "disconnected"]
      (by decide)).2⟩

/-- C9: cleanupPeerConnection for peer p removes the entries of p from both
the peerConnections and the dataChannels map, invoking close on exactly the
entries that were present, and leaves the entries of every other peer q and
the rest of the manager state unchanged. -/
theorem cleanup_frame (m : Manager) (p q : String) (hpq : p ≠ q) :
    (cleanupPeerConnection m p).1.peerConnections.get p = none
    ∧ (cleanupPeerConnection m p).1.dataChannels.get p = none
    ∧ (cleanupPeerConnection m p).1.peerConnections.get q
        = m.peerConnections.get q
    ∧ (cleanupPeerConnection m p).1.dataChannels.get q
        = m.dataChannels.get q
    ∧ (cleanupPeerConnection m p).1.signalsSent = m.signalsSent
    ∧ (cleanupPeerConnection m p).1.isConnected = m.isConnected
    ∧ (cleanupPeerConnection m p).1.socketPresent = m.socketPresent
    ∧ (cleanupPeerConnection m p).2
        = (m.peerConnections.get p).toList.map CloseAction.closedPeerConnection
          ++ (m.dataChannels.get p).toList.map CloseAction.closedDataChannel := by
  have hq : q ≠ p := fun h => hpq h.symm
  simp only [cleanupPeerConnection]
  cases hpc : m.peerConnections.get p with
  | none =>
    cases hdc : m.dataChannels.get p with
    | none =>
      simp [hpc, hdc]
    | some ch =>
      simp [hpc, hdc, Store.get_del_self, Store.get_del_ne _ _ _ hq]
  | some pc =>
    cases hdc : m.dataChannels.get p with
    | none =>
      simp [hpc, hdc, Store.get_del_self, Store.get_del_ne _ _ _ hq]
    | some ch =>
      simp [hpc, hdc, Store.get_del_self, Store.get_del_ne _ _ _ hq]

/-- Witness for C9 at a concrete manager holding entries for two peers. -/
theorem cleanup_frame_witness :
    (cleanupPeerConnection mgr2 "p").1.peerConnections.get "p" = none
    ∧ (cleanupPeerConnection mgr2 "p").1.dataChannels.get "p" = none
    ∧ (cleanupPeerConnection mgr2 "p").1.dataChannels.get "q"
        = mgr2.dataChannels.get "q"
    ∧ (cleanupPeerConnection mgr2 "p").2
        = (mgr2.peerConnections.get "p").toList.map
            CloseAction.closedPeerConnection
          ++ (mgr2.dataChannels.get "p").toList.map
            CloseAction.closedDataChannel :=
  ⟨(cleanup_frame mgr2 "p" "q" (by decide)).1,
   (cleanup_frame mgr2 "p" "q" (by decide)).2.1,
   (cleanup_frame mgr2 "p" "q" (by decide)).2.2.2.1,
   (cleanup_frame mgr2 "p" "q" (by decide)).2.2.2.2.2.2.2⟩

/-- C3 counterexample: the inbound handler reports completion for a
transfer with gaps: on the message sequence metadata declaring three
chunks, chunk zero only, then the completion marker, not every index was
observed, yet the completion log line fires — there is no aborted
transition and no failure event anywhere in the handler. -/
theorem inbound_completion_counterexample :
    spec_allChunksObserved
        [Msg.file_metadata "a.txt" 10 3,
         Msg.file_chunk 0 3 [1, 2, 3, 4],
         Msg.transfer_complete "a.txt"] 3 = false
    ∧ ReceiverLog.transferCompleted "a.txt" ∈ receiverLogs
        [Msg.file_metadata "a.txt" 10 3,
         Msg.file_chunk 0 3 [1, 2, 3, 4],
         Msg.transfer_complete "a.txt"] := by
  constructor
  · decide
  · exact List.Mem.tail _ (List.Mem.tail _ (List.Mem.head _))

/-- C3 amended: the receiver wired in App.js maintains no inbound session
state and performs no completeness check: for every inbound message
sequence, the completion log line for a name fires exactly when a transfer
completion message with that name arrives, regardless of which chunk
indices were observed before it, and the handler has no aborted state and
no failure event. -/
theorem inbound_completion_unconditional (msgs : List Msg) (name : String) :
    ReceiverLog.transferCompleted name ∈ receiverLogs msgs ↔
      Msg.transfer_complete name ∈ msgs := by
  unfold receiverLogs
  rw [List.mem_map]
  constructor
  · rintro ⟨msg, hm, he⟩
    cases msg with
    | file_metadata n s c =>
      exact absurd he (by simp [onDataReceived])
    | file_chunk i t d =>
      exact absurd he (by simp [onDataReceived])
    | transfer_complete fn =>
      have : fn = name := by
        simpa [onDataReceived] using he
      subst this
      exact hm
  · intro hm
    exact ⟨Msg.transfer_complete name, hm, rfl⟩

/-- Witness for C3 at a one message sequence. -/
theorem inbound_completion_unconditional_witness :
    ReceiverLog.transferCompleted "b.txt"
      ∈ receiverLogs [Msg.transfer_complete "b.txt"] :=
  (inbound_completion_unconditional [Msg.transfer_complete "b.txt"]
    "b.txt").mpr (List.Mem.head _)
